import Mathlib

/-!
# Verification of the X.509 object model (certificate / CSR / CRL-entry core)

The repository ships the test suite for its X.509 subsystem
(`tests/test_x509.py`) together with the specification, while the module
implementing the subsystem itself (`x509.py` and the backend glue) is not part
of the sources available here.  Following the spec (sections 3, 4 and 7 of
`spec.md`), the definitions below are a shallow embedding of that subsystem:
every definition whose implementation is absent from the sources carries a
doc comment starting with `Modelled from the spec:` and is written to follow
the spec's words, cross-checked against the behaviour pinned by
`tests/test_x509.py`.

Python dynamic values are embedded explicitly: byte strings become `List Nat`
(each element intended `< 256`), text becomes `String`, fallible operations
return `Except X509Error`.
-/

/-- Modelled from the spec: `ObjectIdentifier` is an immutable value holding a
dotted string; equality and hashing are by the dotted string only (`x509.py`
is not in the sources). -/
structure ObjectIdentifier where
  dotted_string : String
  deriving DecidableEq, Repr

/-- Modelled from the spec: the error taxonomy of section 7 (`x509.py` is not
in the sources).  `ValueError` / `TypeError` stand for the Python builtin
error classes used for `TypeMismatch`, `AlreadySet`, `MissingRequiredField`
and malformed-input rejections; the extension errors carry the offending OID
and `InvalidVersion` carries the raw parsed integer. -/
inductive X509Error where
  | DuplicateExtension (oid : ObjectIdentifier)
  | UnsupportedExtension (oid : ObjectIdentifier)
  | ExtensionNotFound (oid : ObjectIdentifier)
  | InvalidVersion (parsed_version : Nat)
  | UnsupportedAlgorithm (msg : String)
  | ValueError (msg : String)
  | TypeError (msg : String)
  deriving DecidableEq, Repr

/-- `true` exactly on error results. -/
def Except.isErr {ε α : Type} : Except ε α → Bool
  | .error _ => true
  | .ok _ => false

/-- `true` exactly on `DuplicateExtension` errors. -/
def Except.isDuplicateExtensionErr {α : Type} : Except X509Error α → Bool
  | .error (.DuplicateExtension _) => true
  | _ => false

/-- `true` exactly on `UnsupportedExtension` errors. -/
def Except.isUnsupportedExtensionErr {α : Type} : Except X509Error α → Bool
  | .error (.UnsupportedExtension _) => true
  | _ => false

/-- Modelled from the spec: the static OID → human readable name lookup table
(`_OID_NAMES` of `x509.py`, not in the sources); only the entries exercised by
`tests/test_x509.py` are reproduced. -/
def oidNames : List (String × String) :=
  [("2.5.4.3", "commonName"),
   ("2.5.4.6", "countryName"),
   ("2.5.4.7", "localityName"),
   ("2.5.4.8", "stateOrProvinceName"),
   ("2.5.4.10", "organizationName"),
   ("2.5.4.11", "organizationalUnitName")]

/-- Modelled from the spec: the constructor of `ObjectIdentifier`.  The tests
(`TestObjectIdentifier.test_eq`, `test_name_property`) construct
`ObjectIdentifier('oid')` successfully, so the constructor performs no
validation of the dotted form: it never fails. -/
def ObjectIdentifier.create (s : String) : Except X509Error ObjectIdentifier :=
  .ok ⟨s⟩

/-- Modelled from the spec: the derived human readable name, with the sentinel
`"Unknown OID"` for strings absent from the lookup table. -/
def ObjectIdentifier.name (o : ObjectIdentifier) : String :=
  ((oidNames.lookup o.dotted_string).getD "Unknown OID")

/-- The spec's well-formedness condition on an OID string, stated in its own
words ("validated numeric-dot-separated form"): one or more nonempty groups
of decimal digits separated by dots.  Used only to state the claim about
construction; the constructor itself (pinned by the tests) does not check it. -/
def wellFormedDottedOid (s : String) : Bool :=
  (s.data.splitOn '.').all (fun g => !g.isEmpty && g.all (·.isDigit))

/-- Modelled from the spec: `NameAttribute` is an immutable
`(oid, text value)` pair with structural equality. -/
structure NameAttribute where
  oid : ObjectIdentifier
  value : String
  deriving DecidableEq, Repr

/-- Modelled from the spec: `Name` is the ordered sequence of
`NameAttribute` entries in DER encounter order; equality depends on the full
ordered sequence. -/
structure Name where
  attributes : List NameAttribute
  deriving DecidableEq, Repr

/-- Modelled from the spec: `get_attributes_for_oid` is a stable filter
preserving order of occurrence. -/
def Name.get_attributes_for_oid (n : Name) (o : ObjectIdentifier) :
    List NameAttribute :=
  n.attributes.filter (fun a => a.oid = o)

/-- Injective encoding of a character list into `Nat`, used to model Python's
hashing of text: `Nat.pair` chains the code points. -/
def encCharList : List Char → Nat
  | [] => 0
  | c :: l => Nat.pair c.toNat (encCharList l) + 1

/-- Injective encoding of a string into `Nat`. -/
def encText (s : String) : Nat := encCharList s.data

/-- Modelled from the spec: the hash of a `NameAttribute` depends on the
`(oid, value)` pair.  Python's `hash` is a bounded machine word, so the model
reduces the pair encoding modulo `2 ^ 64`: collisions are possible, exactly
as for the program. -/
def NameAttribute.hashValue (a : NameAttribute) : Nat :=
  Nat.pair (encText a.oid.dotted_string) (encText a.value) % 2 ^ 64

/-- Bounded mixing of the attribute hashes over the ordered sequence, one
64-bit word per step. -/
def nameHashAux : List NameAttribute → Nat
  | [] => 0
  | a :: l => (Nat.pair a.hashValue (nameHashAux l) + 1) % 2 ^ 64

/-- Modelled from the spec: the hash of a `Name` depends on the full ordered
sequence of its attributes (Python hashes the tuple of attributes); the
model mixes the bounded attribute hashes in encounter order, again into a
64-bit word. -/
def Name.hashValue (n : Name) : Nat := nameHashAux n.attributes

theorem nameHashAux_lt (l : List NameAttribute) : nameHashAux l < 2 ^ 64 := by
  cases l with
  | nil => norm_num [nameHashAux]
  | cons a t =>
    unfold nameHashAux
    exact Nat.mod_lt _ (by norm_num)

/-- Modelled from the spec: a decoded extension value.  The block-level state
machine of section 4.3 does not depend on the payload grammar of the ~20
typed kinds, so the model keeps a recognized payload as `typed` and an
unrecognized non-critical payload as the opaque `rawValue`. -/
inductive ExtensionValue where
  | typed (oid : ObjectIdentifier) (payload : List Nat)
  | rawValue (oid : ObjectIdentifier) (payload : List Nat)
  deriving DecidableEq, Repr

/-- Modelled from the spec: an `Extension` is the immutable triple
`(oid, critical, value)`. -/
structure Extension where
  oid : ObjectIdentifier
  critical : Bool
  value : ExtensionValue
  deriving DecidableEq, Repr

/-- Modelled from the spec: `Extensions` is the ordered collection of
distinct-OID entries in encounter order. -/
structure Extensions where
  entries : List Extension
  deriving DecidableEq, Repr

/-- Modelled from the spec: one raw `(oid, critical, payload)` triple as it
sits in the encoded extensions block, before the typed decode. -/
structure RawExtension where
  oid : ObjectIdentifier
  critical : Bool
  payload : List Nat
  deriving DecidableEq, Repr

/-- Modelled from the spec: the dotted strings of the extension OIDs the typed
registry recognizes (`tests/test_x509.py` exercises BasicConstraints,
KeyUsage, SubjectAlternativeName, ExtendedKeyUsage, CRLDistributionPoints,
CertificatePolicies, AuthorityKeyIdentifier, SubjectKeyIdentifier and
CRLReason among others). -/
def recognizedExtensionOids : List String :=
  ["2.5.29.19", "2.5.29.15", "2.5.29.17", "2.5.29.37", "2.5.29.31",
   "2.5.29.32", "2.5.29.35", "2.5.29.14", "2.5.29.21"]

/-- Whether the typed extension registry recognizes this OID. -/
def recognizedExtension (o : ObjectIdentifier) : Bool :=
  recognizedExtensionOids.contains o.dotted_string

/-- Modelled from the spec (section 4.3): the decode state machine for an
extensions block, processing entries in encounter order.  For each entry:
an OID already seen raises `DuplicateExtension` (oid attached); a recognized
OID decodes to its typed value; an unrecognized critical entry raises
`UnsupportedExtension` (oid attached); an unrecognized non-critical entry is
kept opaquely. -/
def decodeExtensionsAux : List ObjectIdentifier → List RawExtension →
    Except X509Error (List Extension)
  | _, [] => .ok []
  | seen, e :: rest =>
    if e.oid ∈ seen then .error (.DuplicateExtension e.oid)
    else if recognizedExtension e.oid then
      (decodeExtensionsAux (e.oid :: seen) rest).map
        (fun es => ⟨e.oid, e.critical, .typed e.oid e.payload⟩ :: es)
    else if e.critical then .error (.UnsupportedExtension e.oid)
    else
      (decodeExtensionsAux (e.oid :: seen) rest).map
        (fun es => ⟨e.oid, e.critical, .rawValue e.oid e.payload⟩ :: es)

/-- Modelled from the spec: decoding the extensions block of a certificate,
CSR or CRL entry (triggered on first access of `.extensions`), starting from
an empty seen-OID set. -/
def decodeExtensions (l : List RawExtension) : Except X509Error Extensions :=
  (decodeExtensionsAux [] l).map Extensions.mk

/-- The seen-OID set accumulated by the state machine after a run of
entries. -/
def seenAfter (seen : List ObjectIdentifier) (pre : List RawExtension) :
    List ObjectIdentifier :=
  pre.foldl (fun s e => e.oid :: s) seen

/-- An extensions block contains two entries with the same OID. -/
def hasDuplicateOid : List RawExtension → Bool
  | [] => false
  | e :: rest => (rest.map (·.oid)).contains e.oid || hasDuplicateOid rest

theorem seenAfter_mem (pre : List RawExtension) :
    ∀ (seen : List ObjectIdentifier) (o : ObjectIdentifier),
      o ∈ seenAfter seen pre ↔ (o ∈ seen ∨ o ∈ pre.map (·.oid)) := by
  induction pre with
  | nil => intro seen o; simp [seenAfter]
  | cons e rest ih =>
    intro seen o
    have : seenAfter seen (e :: rest) = seenAfter (e.oid :: seen) rest := rfl
    rw [this, ih]
    simp only [List.mem_cons, List.map_cons]
    tauto

theorem decodeExtensionsAux_append {pre : List RawExtension} :
    ∀ {seen : List ObjectIdentifier} {v : List Extension},
      decodeExtensionsAux seen pre = .ok v → ∀ (l : List RawExtension),
      decodeExtensionsAux seen (pre ++ l) =
        (decodeExtensionsAux (seenAfter seen pre) l).map (v ++ ·) := by
  induction pre with
  | nil =>
    intro seen v hpre l
    simp only [decodeExtensionsAux, Except.ok.injEq] at hpre
    subst hpre
    simp only [List.nil_append, seenAfter, List.foldl_nil]
    cases decodeExtensionsAux seen l with
    | error err => rfl
    | ok es => simp [Except.map]
  | cons e rest ih =>
    intro seen v hpre l
    rw [List.cons_append]
    simp only [decodeExtensionsAux] at hpre ⊢
    by_cases hmem : e.oid ∈ seen
    · simp [hmem] at hpre
    · simp only [if_neg hmem] at hpre ⊢
      have hseen : seenAfter seen (e :: rest) = seenAfter (e.oid :: seen) rest := rfl
      by_cases hrec : recognizedExtension e.oid
      · simp only [hrec, if_true] at hpre ⊢
        cases hrest : decodeExtensionsAux (e.oid :: seen) rest with
        | error err => rw [hrest] at hpre; simp [Except.map] at hpre
        | ok v1 =>
          rw [hrest] at hpre
          simp only [Except.map, Except.ok.injEq] at hpre
          rw [ih hrest l, hseen]
          cases decodeExtensionsAux (seenAfter (e.oid :: seen) rest) l with
          | error err => simp [Except.map]
          | ok v2 => simp [Except.map, ← hpre]
      · rw [Bool.not_eq_true] at hrec
        simp only [hrec, Bool.false_eq_true, if_false] at hpre ⊢
        by_cases hcrit : e.critical = true
        · simp [hcrit] at hpre
        · rw [Bool.not_eq_true] at hcrit
          simp only [hcrit, Bool.false_eq_true, if_false] at hpre ⊢
          cases hrest : decodeExtensionsAux (e.oid :: seen) rest with
          | error err => rw [hrest] at hpre; simp [Except.map] at hpre
          | ok v1 =>
            rw [hrest] at hpre
            simp only [Except.map, Except.ok.injEq] at hpre
            rw [ih hrest l, hseen]
            cases decodeExtensionsAux (seenAfter (e.oid :: seen) rest) l with
            | error err => simp [Except.map]
            | ok v2 => simp [Except.map, ← hpre]

/-- An extensions block contains an entry whose OID is unrecognized and whose
critical flag is set. -/
def hasUnsupportedCritical (l : List RawExtension) : Bool :=
  l.any (fun e => !recognizedExtension e.oid && e.critical)

/-- C2 counterexample: an extensions block that contains two entries with the
same OID (`2.5.29.19` twice) but whose first entry is an unrecognized
critical extension (`1.2.3.4`).  Decoding it raises `UnsupportedExtension`
for the first entry, not `DuplicateExtension`, so a duplicate OID alone does
not guarantee a `DuplicateExtension` error. -/
theorem duplicate_oid_block_may_raise_other_error :
    hasDuplicateOid
      [⟨⟨"1.2.3.4"⟩, true, []⟩, ⟨⟨"2.5.29.19"⟩, false, []⟩,
       ⟨⟨"2.5.29.19"⟩, false, []⟩] = true ∧
    (decodeExtensions
      [⟨⟨"1.2.3.4"⟩, true, []⟩, ⟨⟨"2.5.29.19"⟩, false, []⟩,
       ⟨⟨"2.5.29.19"⟩, false, []⟩]).isDuplicateExtensionErr = false ∧
    decodeExtensions
      [⟨⟨"1.2.3.4"⟩, true, []⟩, ⟨⟨"2.5.29.19"⟩, false, []⟩,
       ⟨⟨"2.5.29.19"⟩, false, []⟩] =
      .error (.UnsupportedExtension ⟨"1.2.3.4"⟩) :=
  ⟨rfl, rfl, rfl⟩

/-- C2 (amended): decoding reports the first failing entry in encounter
order; whenever every entry before the offending one decodes successfully
and an entry's OID repeats the OID of an earlier entry of the block,
decoding raises `DuplicateExtension` carrying that repeated OID. -/
theorem decode_duplicate_extension_raises (pre rest : List RawExtension)
    (e : RawExtension) (v : List Extension)
    (hpre : decodeExtensionsAux [] pre = .ok v)
    (hdup : e.oid ∈ pre.map (·.oid)) :
    decodeExtensions (pre ++ e :: rest) = .error (.DuplicateExtension e.oid) := by
  unfold decodeExtensions
  rw [decodeExtensionsAux_append hpre (e :: rest)]
  have hmem : e.oid ∈ seenAfter [] pre :=
    (seenAfter_mem pre [] e.oid).mpr (Or.inr hdup)
  simp [decodeExtensionsAux, hmem, Except.map]

/-- C2 witness: a block carrying BasicConstraints (`2.5.29.19`) twice — the
shape of `two_basic_constraints.pem` — raises `DuplicateExtension` with that
OID. -/
theorem decode_duplicate_extension_raises_witness :
    decodeExtensions
      [⟨⟨"2.5.29.19"⟩, true, [48, 0]⟩, ⟨⟨"2.5.29.19"⟩, false, []⟩] =
      .error (.DuplicateExtension ⟨"2.5.29.19"⟩) :=
  decode_duplicate_extension_raises [⟨⟨"2.5.29.19"⟩, true, [48, 0]⟩] []
    ⟨⟨"2.5.29.19"⟩, false, []⟩
    [⟨⟨"2.5.29.19"⟩, true, .typed ⟨"2.5.29.19"⟩ [48, 0]⟩] rfl (by simp)

/-- C4 counterexample: an extensions block that contains an unrecognized
critical entry (`1.2.3.4`) but whose earlier entries repeat an OID
(`2.5.29.19` twice).  Decoding raises `DuplicateExtension` for the earlier
repetition, not `UnsupportedExtension`, so the presence of an unrecognized
critical entry alone does not guarantee an `UnsupportedExtension` error. -/
theorem unsupported_critical_block_may_raise_other_error :
    hasUnsupportedCritical
      [⟨⟨"2.5.29.19"⟩, false, []⟩, ⟨⟨"2.5.29.19"⟩, false, []⟩,
       ⟨⟨"1.2.3.4"⟩, true, []⟩] = true ∧
    (decodeExtensions
      [⟨⟨"2.5.29.19"⟩, false, []⟩, ⟨⟨"2.5.29.19"⟩, false, []⟩,
       ⟨⟨"1.2.3.4"⟩, true, []⟩]).isUnsupportedExtensionErr = false ∧
    decodeExtensions
      [⟨⟨"2.5.29.19"⟩, false, []⟩, ⟨⟨"2.5.29.19"⟩, false, []⟩,
       ⟨⟨"1.2.3.4"⟩, true, []⟩] =
      .error (.DuplicateExtension ⟨"2.5.29.19"⟩) :=
  ⟨rfl, rfl, rfl⟩

/-- C4 (amended): decoding reports the first failing entry in encounter
order; whenever every entry before the offending one decodes successfully
and an entry has an unrecognized OID that is new to the block together with
a set critical flag, decoding raises `UnsupportedExtension` carrying that
OID. -/
theorem decode_unsupported_critical_raises (pre rest : List RawExtension)
    (e : RawExtension) (v : List Extension)
    (hpre : decodeExtensionsAux [] pre = .ok v)
    (hnew : e.oid ∉ pre.map (·.oid))
    (hrec : recognizedExtension e.oid = false)
    (hcrit : e.critical = true) :
    decodeExtensions (pre ++ e :: rest) = .error (.UnsupportedExtension e.oid) := by
  unfold decodeExtensions
  rw [decodeExtensionsAux_append hpre (e :: rest)]
  have hmem : e.oid ∉ seenAfter [] pre := by
    rw [seenAfter_mem]
    simp [hnew]
  simp [decodeExtensionsAux, hmem, hrec, hcrit, Except.map]

/-- C4 witness: a block with a single unrecognized critical entry of OID
`1.2.3.4` — the shape of `unsupported_extension_critical.pem` — raises
`UnsupportedExtension` with that OID. -/
theorem decode_unsupported_critical_raises_witness :
    decodeExtensions [⟨⟨"1.2.3.4"⟩, true, [1, 2]⟩] =
      .error (.UnsupportedExtension ⟨"1.2.3.4"⟩) :=
  decode_unsupported_critical_raises [] [] ⟨⟨"1.2.3.4"⟩, true, [1, 2]⟩ []
    rfl (by simp) rfl rfl

/-- Twenty-one pairwise distinct attributes: a multiset with more
reorderings (21! > 2^64) than 64-bit hash values. -/
def baseAttrs : List NameAttribute :=
  (List.range 21).map
    (fun i => ⟨⟨"2.5.4.3"⟩, String.mk [Char.ofNat (97 + i)]⟩)

/-- C5 counterexample: the negation of the claim's universal
hash-inequality clause.  The hash is a bounded 64-bit word while the
21 pairwise distinct attributes of `baseAttrs` admit `21! > 2^64`
reorderings, so by pigeonhole two distinct reorderings of the same
multiset share a hash: hash inequality cannot hold for every
differently-ordered pair. -/
theorem name_hash_collision_exists :
    ¬ (∀ n1 n2 : Name, List.Perm n1.attributes n2.attributes →
        n1.attributes ≠ n2.attributes → n1.hashValue ≠ n2.hashValue) := by
  intro hclaim
  have hnodup : baseAttrs.Nodup := by decide
  have hpnodup : baseAttrs.permutations.Nodup :=
    List.nodup_permutations baseAttrs hnodup
  have hlen : baseAttrs.length = 21 := by decide
  have hcard : (Finset.range (2 ^ 64)).card <
      baseAttrs.permutations.toFinset.card := by
    rw [List.toFinset_card_of_nodup hpnodup, List.length_permutations,
      Finset.card_range, hlen]
    decide
  have hmaps : ∀ l ∈ baseAttrs.permutations.toFinset,
      (Name.mk l).hashValue ∈ Finset.range (2 ^ 64) := by
    intro l _
    rw [Finset.mem_range]
    exact nameHashAux_lt l
  obtain ⟨x, hx, y, hy, hxy, hf⟩ :=
    Finset.exists_ne_map_eq_of_card_lt_of_maps_to hcard hmaps
  rw [List.mem_toFinset, List.mem_permutations] at hx hy
  exact hclaim ⟨x⟩ ⟨y⟩ (hx.trans hy.symm) hxy hf

/-- C5 (amended): `Name` equality is order-sensitive over the full ordered
attribute sequence — same order gives equal names with equal hashes,
different order gives unequal names — and the bounded hash distinguishes
the reordered pair the tests pin (`TestName.test_hash`), though a bounded
hash cannot distinguish every reordered pair. -/
theorem name_eq_order_sensitive (n1 n2 : Name)
    (hperm : List.Perm n1.attributes n2.attributes) :
    (n1.attributes = n2.attributes →
       n1 = n2 ∧ n1.hashValue = n2.hashValue) ∧
    (n1.attributes ≠ n2.attributes → n1 ≠ n2) ∧
    (Name.mk [⟨⟨"oid"⟩, "value1"⟩, ⟨⟨"oid2"⟩, "value2"⟩]).hashValue ≠
      (Name.mk [⟨⟨"oid2"⟩, "value2"⟩, ⟨⟨"oid"⟩, "value1"⟩]).hashValue := by
  refine ⟨?_, ?_, ?_⟩
  · intro h
    have heq : n1 = n2 := by
      cases n1
      cases n2
      simpa using h
    exact ⟨heq, by rw [heq]⟩
  · intro h hq
    exact h (by rw [hq])
  · decide

/-- C5 witness: the attribute orders of `TestName.test_ne` /
`TestName.test_hash` at the concrete test pair. -/
theorem name_eq_order_sensitive_witness :
    (Name.mk [⟨⟨"oid"⟩, "value1"⟩, ⟨⟨"oid2"⟩, "value2"⟩] ≠
       Name.mk [⟨⟨"oid2"⟩, "value2"⟩, ⟨⟨"oid"⟩, "value1"⟩]) ∧
    (Name.mk [⟨⟨"oid"⟩, "value1"⟩, ⟨⟨"oid2"⟩, "value2"⟩] =
       Name.mk [⟨⟨"oid"⟩, "value1"⟩, ⟨⟨"oid2"⟩, "value2"⟩] ∧
     (Name.mk [⟨⟨"oid"⟩, "value1"⟩, ⟨⟨"oid2"⟩, "value2"⟩]).hashValue =
       (Name.mk [⟨⟨"oid"⟩, "value1"⟩, ⟨⟨"oid2"⟩, "value2"⟩]).hashValue) :=
  ⟨(name_eq_order_sensitive
      (Name.mk [⟨⟨"oid"⟩, "value1"⟩, ⟨⟨"oid2"⟩, "value2"⟩])
      (Name.mk [⟨⟨"oid2"⟩, "value2"⟩, ⟨⟨"oid"⟩, "value1"⟩])
      (by decide)).2.1 (by decide),
   (name_eq_order_sensitive
      (Name.mk [⟨⟨"oid"⟩, "value1"⟩, ⟨⟨"oid2"⟩, "value2"⟩])
      (Name.mk [⟨⟨"oid"⟩, "value1"⟩, ⟨⟨"oid2"⟩, "value2"⟩])
      (List.Perm.refl _)).1 rfl⟩

/-- C8 counterexample: `"oid"` is not a well-formed dotted-decimal string,
yet constructing an `ObjectIdentifier` from it succeeds (as
`TestObjectIdentifier.test_eq` and `test_name_property` pin down), rather
than failing with a `TypeError`-kind error. -/
theorem objectidentifier_create_accepts_malformed :
    wellFormedDottedOid "oid" = false ∧
    ObjectIdentifier.create "oid" = .ok ⟨"oid"⟩ ∧
    (ObjectIdentifier.create "oid").isErr = false :=
  ⟨by decide, rfl, rfl⟩

/-- C8 (amended): constructing an `ObjectIdentifier` never fails — any string
is accepted as the dotted string without validation — and a string absent
from the static lookup table yields the sentinel name `"Unknown OID"`. -/
theorem objectidentifier_create_total (s : String) :
    ObjectIdentifier.create s = .ok ⟨s⟩ ∧
    (oidNames.lookup s = none → ObjectIdentifier.name ⟨s⟩ = "Unknown OID") := by
  refine ⟨rfl, fun h => ?_⟩
  simp [ObjectIdentifier.name, h]

/-- C8 witness: the unvalidated string `"oid"` of the tests. -/
theorem objectidentifier_create_total_witness :
    ObjectIdentifier.create "oid" = .ok ⟨"oid"⟩ ∧
    ObjectIdentifier.name ⟨"oid"⟩ = "Unknown OID" :=
  ⟨(objectidentifier_create_total "oid").1,
   (objectidentifier_create_total "oid").2 (by decide)⟩

/-- Modelled from the spec: an opaque backend public-key handle (section 3,
"public_key: opaque backend key handle"). -/
structure PublicKey where
  handle : Nat
  deriving DecidableEq, Repr

/-- Modelled from the spec: an opaque backend private-key handle owned by the
caller of `sign`. -/
structure PrivateKey where
  handle : Nat
  deriving DecidableEq, Repr

/-- Modelled from the spec: a hash-algorithm descriptor (name suffices for the
builder contracts). -/
structure HashAlgorithm where
  algname : String
  deriving DecidableEq, Repr

/-- Modelled from the spec: a naive `datetime.datetime` value. -/
structure PyDateTime where
  year : Nat
  month : Nat
  day : Nat
  hour : Nat
  minute : Nat
  second : Nat
  deriving DecidableEq, Repr

/-- Chronological key of a datetime: strictly monotone in the lexicographic
field order for in-range field values, used to compare datetimes. -/
def PyDateTime.key (d : PyDateTime) : Nat :=
  ((((d.year * 13 + d.month) * 32 + d.day) * 25 + d.hour) * 61 + d.minute) * 61
    + d.second

/-- Modelled from the spec: the earliest validity instant the builder setters
accept anything after.  The tests bracket the bound — `datetime(1960, 8, 10)`
is rejected with `ValueError`, `datetime(1999, 1, 1)` is accepted — and the
model places it at the Unix epoch, 1970-01-01. -/
def unixEpoch : PyDateTime := ⟨1970, 1, 1, 0, 0, 0⟩

/-- Modelled: the dynamic Python argument handed to the validity setters; the
tests pass plain integers and `datetime.time()` values besides datetimes. -/
inductive PyTimeArg where
  | int (n : Int)
  | timeOfDay (hour minute second : Nat)
  | datetime (d : PyDateTime)
  deriving DecidableEq, Repr

/-- Modelled from the spec: `CertificateBuilder` is an immutable value object
accumulating the set-once fields. -/
structure CertificateBuilder where
  issuer : Option Name
  subject : Option Name
  pubkey : Option PublicKey
  serial : Option Int
  nvb : Option PyDateTime
  nva : Option PyDateTime
  exts : List Extension
  deriving DecidableEq, Repr

/-- A fresh `CertificateBuilder()` with no field populated. -/
def CertificateBuilder.empty : CertificateBuilder :=
  ⟨none, none, none, none, none, none, []⟩

/-- Modelled from the spec: set-once issuer setter returning a new builder. -/
def CertificateBuilder.issuer_name (b : CertificateBuilder) (n : Name) :
    Except X509Error CertificateBuilder :=
  if b.issuer.isSome then
    .error (.ValueError "The issuer name may only be set once.")
  else .ok { b with issuer := some n }

/-- Modelled from the spec: set-once subject setter returning a new builder. -/
def CertificateBuilder.subject_name (b : CertificateBuilder) (n : Name) :
    Except X509Error CertificateBuilder :=
  if b.subject.isSome then
    .error (.ValueError "The subject name may only be set once.")
  else .ok { b with subject := some n }

/-- Modelled from the spec: set-once public-key setter returning a new
builder. -/
def CertificateBuilder.public_key (b : CertificateBuilder) (k : PublicKey) :
    Except X509Error CertificateBuilder :=
  if b.pubkey.isSome then
    .error (.ValueError "The public key may only be set once.")
  else .ok { b with pubkey := some k }

/-- Modelled from the spec and the tests
(`test_serial_number_must_be_non_negative`,
`test_serial_number_must_be_less_than_160_bits_long`,
`test_serial_number_may_only_be_set_once`): set-once serial setter rejecting
negative values and values of more than 160 bits (that is, `≥ 2 ^ 160`). -/
def CertificateBuilder.serial_number (b : CertificateBuilder) (n : Int) :
    Except X509Error CertificateBuilder :=
  if b.serial.isSome then
    .error (.ValueError "The serial number may only be set once.")
  else if n < 0 then
    .error (.ValueError "The serial number should be non-negative.")
  else if 2 ^ 160 ≤ n then
    .error (.ValueError "The serial number should not be more than 160 bits.")
  else .ok { b with serial := some n }

/-- Modelled from the spec and the tests (`test_invalid_not_valid_before`):
set-once not-valid-before setter; a non-datetime argument is a `TypeError`,
a datetime not after the model's earliest accepted instant is a
`ValueError`. -/
def CertificateBuilder.not_valid_before (b : CertificateBuilder)
    (t : PyTimeArg) : Except X509Error CertificateBuilder :=
  match t with
  | .datetime d =>
    if b.nvb.isSome then
      .error (.ValueError "The not valid before may only be set once.")
    else if d.key ≤ unixEpoch.key then
      .error (.ValueError "The not valid before date must be after the unix epoch.")
    else .ok { b with nvb := some d }
  | _ => .error (.TypeError "Expecting datetime object.")

/-- Modelled from the spec and the tests (`test_invalid_not_valid_after`):
set-once not-valid-after setter, with the same argument validation as
`not_valid_before`. -/
def CertificateBuilder.not_valid_after (b : CertificateBuilder)
    (t : PyTimeArg) : Except X509Error CertificateBuilder :=
  match t with
  | .datetime d =>
    if b.nva.isSome then
      .error (.ValueError "The not valid after may only be set once.")
    else if d.key ≤ unixEpoch.key then
      .error (.ValueError "The not valid after date must be after the unix epoch.")
    else .ok { b with nva := some d }
  | _ => .error (.TypeError "Expecting datetime object.")

/-- Modelled from the spec: `add_extension` appends and rejects an OID already
queued on this builder. -/
def CertificateBuilder.add_extension (b : CertificateBuilder) (e : Extension) :
    Except X509Error CertificateBuilder :=
  if (b.exts.map (·.oid)).contains e.oid then
    .error (.ValueError "This extension has already been set.")
  else .ok { b with exts := b.exts ++ [e] }

/-- Modelled from the spec (section 4.5 steps 1 and 6): the record handed to
the backend once `sign` has validated the builder; the model stops at the
delegation boundary. -/
structure TbsCertificateRequest where
  issuer : Name
  subject : Name
  pubkey : PublicKey
  serial : Int
  nvb : PyDateTime
  nva : PyDateTime
  exts : List Extension
  key : PrivateKey
  halg : HashAlgorithm
  deriving DecidableEq, Repr

/-- Modelled from the spec: `sign` validates that every required field is
populated, raising `ValueError` before any delegation to the backend, and
otherwise delegates (the model returns the delegated record). -/
def CertificateBuilder.sign (b : CertificateBuilder) (key : PrivateKey)
    (halg : HashAlgorithm) : Except X509Error TbsCertificateRequest :=
  match b.subject with
  | none => .error (.ValueError "A certificate must have a subject name")
  | some subj =>
    match b.issuer with
    | none => .error (.ValueError "A certificate must have an issuer name")
    | some iss =>
      match b.serial with
      | none => .error (.ValueError "A certificate must have a serial number")
      | some ser =>
        match b.nvb with
        | none => .error (.ValueError "A certificate must have a not valid before time")
        | some d1 =>
          match b.nva with
          | none => .error (.ValueError "A certificate must have a not valid after time")
          | some d2 =>
            match b.pubkey with
            | none => .error (.ValueError "A certificate must have a public key")
            | some pk => .ok ⟨iss, subj, pk, ser, d1, d2, b.exts, key, halg⟩

/-- Modelled from the spec: `CertificateSigningRequestBuilder` holds the
set-once subject and the queued extensions. -/
structure CertificateSigningRequestBuilder where
  subject : Option Name
  exts : List Extension
  deriving DecidableEq, Repr

/-- A fresh `CertificateSigningRequestBuilder()`. -/
def CertificateSigningRequestBuilder.empty : CertificateSigningRequestBuilder :=
  ⟨none, []⟩

/-- Modelled from the spec: set-once subject setter of the CSR builder. -/
def CertificateSigningRequestBuilder.subject_name
    (b : CertificateSigningRequestBuilder) (n : Name) :
    Except X509Error CertificateSigningRequestBuilder :=
  if b.subject.isSome then
    .error (.ValueError "The subject name may only be set once.")
  else .ok { b with subject := some n }

/-- Modelled from the spec: the record a validated CSR builder delegates to
the backend. -/
structure TbsCsrRequest where
  subject : Name
  exts : List Extension
  key : PrivateKey
  halg : HashAlgorithm
  deriving DecidableEq, Repr

/-- Modelled from the spec: the CSR builder's `sign` requires the subject
name alone, raising `ValueError` before any delegation when it is absent. -/
def CertificateSigningRequestBuilder.sign
    (b : CertificateSigningRequestBuilder) (key : PrivateKey)
    (halg : HashAlgorithm) : Except X509Error TbsCsrRequest :=
  match b.subject with
  | none => .error (.ValueError "A CertificateSigningRequest must have a subject name")
  | some s => .ok ⟨s, b.exts, key, halg⟩

/-- C6: every single-value setter of the two builders is set-once — after a
successful call the returned builder is a new value, distinct from the
receiver, and invoking the same setter on it again raises an error. -/
theorem builder_setters_set_once (b : CertificateBuilder)
    (cb : CertificateSigningRequestBuilder) (n n2 : Name)
    (pk pk2 : PublicKey) (sn sn2 : Int) (d d2 : PyDateTime) :
    (∀ b1, b.issuer_name n = .ok b1 →
       b1 ≠ b ∧ (b1.issuer_name n2).isErr = true) ∧
    (∀ b1, b.subject_name n = .ok b1 →
       b1 ≠ b ∧ (b1.subject_name n2).isErr = true) ∧
    (∀ b1, b.public_key pk = .ok b1 →
       b1 ≠ b ∧ (b1.public_key pk2).isErr = true) ∧
    (∀ b1, b.serial_number sn = .ok b1 →
       b1 ≠ b ∧ (b1.serial_number sn2).isErr = true) ∧
    (∀ b1, b.not_valid_before (.datetime d) = .ok b1 →
       b1 ≠ b ∧ (b1.not_valid_before (.datetime d2)).isErr = true) ∧
    (∀ b1, b.not_valid_after (.datetime d) = .ok b1 →
       b1 ≠ b ∧ (b1.not_valid_after (.datetime d2)).isErr = true) ∧
    (∀ cb1, cb.subject_name n = .ok cb1 →
       cb1 ≠ cb ∧ (cb1.subject_name n2).isErr = true) := by
  refine ⟨?_, ?_, ?_, ?_, ?_, ?_, ?_⟩
  · intro b1 h
    unfold CertificateBuilder.issuer_name at h
    by_cases hs : b.issuer.isSome = true
    · rw [if_pos hs] at h
      exact Except.noConfusion h
    · rw [if_neg hs] at h
      injection h with h
      subst h
      refine ⟨fun hq => ?_,
        by simp [CertificateBuilder.issuer_name, Except.isErr]⟩
      rw [Option.not_isSome_iff_eq_none] at hs
      have hpr := congrArg CertificateBuilder.issuer hq
      simp [hs] at hpr
  · intro b1 h
    unfold CertificateBuilder.subject_name at h
    by_cases hs : b.subject.isSome = true
    · rw [if_pos hs] at h
      exact Except.noConfusion h
    · rw [if_neg hs] at h
      injection h with h
      subst h
      refine ⟨fun hq => ?_,
        by simp [CertificateBuilder.subject_name, Except.isErr]⟩
      rw [Option.not_isSome_iff_eq_none] at hs
      have hpr := congrArg CertificateBuilder.subject hq
      simp [hs] at hpr
  · intro b1 h
    unfold CertificateBuilder.public_key at h
    by_cases hs : b.pubkey.isSome = true
    · rw [if_pos hs] at h
      exact Except.noConfusion h
    · rw [if_neg hs] at h
      injection h with h
      subst h
      refine ⟨fun hq => ?_,
        by simp [CertificateBuilder.public_key, Except.isErr]⟩
      rw [Option.not_isSome_iff_eq_none] at hs
      have hpr := congrArg CertificateBuilder.pubkey hq
      simp [hs] at hpr
  · intro b1 h
    unfold CertificateBuilder.serial_number at h
    by_cases hs : b.serial.isSome = true
    · rw [if_pos hs] at h
      exact Except.noConfusion h
    · rw [if_neg hs] at h
      by_cases hneg : sn < 0
      · rw [if_pos hneg] at h
        exact Except.noConfusion h
      · rw [if_neg hneg] at h
        by_cases hbig : (2 : Int) ^ 160 ≤ sn
        · rw [if_pos hbig] at h
          exact Except.noConfusion h
        · rw [if_neg hbig] at h
          injection h with h
          subst h
          refine ⟨fun hq => ?_,
            by simp [CertificateBuilder.serial_number, Except.isErr]⟩
          rw [Option.not_isSome_iff_eq_none] at hs
          have hpr := congrArg CertificateBuilder.serial hq
          simp [hs] at hpr
  · intro b1 h
    unfold CertificateBuilder.not_valid_before at h
    dsimp only at h
    by_cases hs : b.nvb.isSome = true
    · rw [if_pos hs] at h
      exact Except.noConfusion h
    · rw [if_neg hs] at h
      by_cases hlo : d.key ≤ unixEpoch.key
      · rw [if_pos hlo] at h
        exact Except.noConfusion h
      · rw [if_neg hlo] at h
        injection h with h
        subst h
        refine ⟨fun hq => ?_,
          by simp [CertificateBuilder.not_valid_before, Except.isErr]⟩
        rw [Option.not_isSome_iff_eq_none] at hs
        have hpr := congrArg CertificateBuilder.nvb hq
        simp [hs] at hpr
  · intro b1 h
    unfold CertificateBuilder.not_valid_after at h
    dsimp only at h
    by_cases hs : b.nva.isSome = true
    · rw [if_pos hs] at h
      exact Except.noConfusion h
    · rw [if_neg hs] at h
      by_cases hlo : d.key ≤ unixEpoch.key
      · rw [if_pos hlo] at h
        exact Except.noConfusion h
      · rw [if_neg hlo] at h
        injection h with h
        subst h
        refine ⟨fun hq => ?_,
          by simp [CertificateBuilder.not_valid_after, Except.isErr]⟩
        rw [Option.not_isSome_iff_eq_none] at hs
        have hpr := congrArg CertificateBuilder.nva hq
        simp [hs] at hpr
  · intro cb1 h
    unfold CertificateSigningRequestBuilder.subject_name at h
    by_cases hs : cb.subject.isSome = true
    · rw [if_pos hs] at h
      exact Except.noConfusion h
    · rw [if_neg hs] at h
      injection h with h
      subst h
      refine ⟨fun hq => ?_,
        by simp [CertificateSigningRequestBuilder.subject_name, Except.isErr]⟩
      rw [Option.not_isSome_iff_eq_none] at hs
      have hpr := congrArg CertificateSigningRequestBuilder.subject hq
      simp [hs] at hpr

/-- C6 witness: setting the issuer name of a fresh builder yields a distinct
builder on which a second `issuer_name` call errors. -/
theorem builder_setters_set_once_witness :
    (⟨some (Name.mk []), none, none, none, none, none, []⟩ :
        CertificateBuilder) ≠ CertificateBuilder.empty ∧
    ((⟨some (Name.mk []), none, none, none, none, none, []⟩ :
        CertificateBuilder).issuer_name (Name.mk [])).isErr = true :=
  (builder_setters_set_once CertificateBuilder.empty
    CertificateSigningRequestBuilder.empty (Name.mk []) (Name.mk [])
    ⟨0⟩ ⟨0⟩ 1 1 ⟨2002, 1, 1, 0, 0, 0⟩ ⟨2002, 1, 1, 0, 0, 0⟩).1 _ rfl

/-- C7: calling `sign` on a `CertificateBuilder` missing any required field
(issuer name, subject name, public key, serial number, either validity
bound), or on a `CertificateSigningRequestBuilder` missing its subject name,
raises a `ValueError`-class error instead of delegating to the backend. -/
theorem builder_sign_missing_field_value_error (b : CertificateBuilder)
    (cb : CertificateSigningRequestBuilder) (key : PrivateKey)
    (halg : HashAlgorithm) :
    ((b.issuer = none ∨ b.subject = none ∨ b.pubkey = none ∨
      b.serial = none ∨ b.nvb = none ∨ b.nva = none) →
       ∃ m, b.sign key halg = .error (.ValueError m)) ∧
    (cb.subject = none →
       ∃ m, cb.sign key halg = .error (.ValueError m)) := by
  constructor
  · intro hmiss
    rcases h1 : b.subject with _ | s <;> rcases h2 : b.issuer with _ | i <;>
      rcases h3 : b.serial with _ | sn <;> rcases h4 : b.nvb with _ | d1 <;>
      rcases h5 : b.nva with _ | d2 <;> rcases h6 : b.pubkey with _ | pk <;>
      simp only [CertificateBuilder.sign, h1, h2, h3, h4, h5, h6] <;>
      first
      | exact ⟨_, rfl⟩
      | (rw [h1, h2, h3, h4, h5, h6] at hmiss; simp at hmiss)
  · intro hmiss
    refine ⟨"A CertificateSigningRequest must have a subject name", ?_⟩
    simp only [CertificateSigningRequestBuilder.sign, hmiss]

/-- C7 witness: a fresh `CertificateBuilder` (the shape of
`TestCertificateBuilder.test_no_subject_name` with every field absent) and a
fresh `CertificateSigningRequestBuilder`
(`TestCertificateSigningRequestBuilder.test_no_subject_name`) both fail
`sign` with a `ValueError`. -/
theorem builder_sign_missing_field_value_error_witness :
    (∃ m, CertificateBuilder.empty.sign ⟨7⟩ ⟨"sha256"⟩ =
       .error (.ValueError m)) ∧
    (∃ m, CertificateSigningRequestBuilder.empty.sign ⟨7⟩ ⟨"sha256"⟩ =
       .error (.ValueError m)) :=
  ⟨(builder_sign_missing_field_value_error CertificateBuilder.empty
      CertificateSigningRequestBuilder.empty ⟨7⟩ ⟨"sha256"⟩).1 (Or.inl rfl),
   (builder_sign_missing_field_value_error CertificateBuilder.empty
      CertificateSigningRequestBuilder.empty ⟨7⟩ ⟨"sha256"⟩).2 rfl⟩

/-- C9: on a builder whose serial is not yet set, `serial_number` rejects
every negative integer and every integer of at least `2 ^ 160` (more than
160 bits) with a `ValueError`-class error. -/
theorem serial_number_range_value_error (b : CertificateBuilder) (n : Int)
    (hnone : b.serial = none) (hrange : n < 0 ∨ 2 ^ 160 ≤ n) :
    ∃ m, b.serial_number n = .error (.ValueError m) := by
  unfold CertificateBuilder.serial_number
  rw [if_neg (by simp [hnone])]
  rcases hrange with hneg | hbig
  · rw [if_pos hneg]
    exact ⟨_, rfl⟩
  · rw [if_neg (by omega), if_pos hbig]
    exact ⟨_, rfl⟩

/-- C9 witness: `-10` and `2 ^ 160` (161 bits), the two inputs of
`test_serial_number_must_be_non_negative` and
`test_serial_number_must_be_less_than_160_bits_long`, are both rejected on
a fresh builder. -/
theorem serial_number_range_value_error_witness :
    (∃ m, CertificateBuilder.empty.serial_number (-10) =
       .error (.ValueError m)) ∧
    (∃ m, CertificateBuilder.empty.serial_number (2 ^ 160) =
       .error (.ValueError m)) :=
  ⟨serial_number_range_value_error CertificateBuilder.empty (-10) rfl
     (Or.inl (by norm_num)),
   serial_number_range_value_error CertificateBuilder.empty (2 ^ 160) rfl
     (Or.inr le_rfl)⟩

/-- C10: the validity setters of `CertificateBuilder` enforce a lower bound
on dates that the spec never states: on a builder whose corresponding field
is unset, every datetime not later than the model's earliest accepted
instant (the Unix epoch; the tests pin the bound between the rejected
`datetime(1960, 8, 10)` and the accepted `datetime(1999, 1, 1)`) raises
`ValueError`, and every non-datetime argument raises `TypeError`; moreover
the `1950-01-01 12:01` validity date that the certificate parse path accepts
(`test_utc_pre_2000_not_before_cert`) lies below that builder bound. -/
theorem validity_setter_bounds (b : CertificateBuilder) (d : PyDateTime)
    (n : Int) (hh hm hs : Nat) :
    (b.nvb = none → d.key ≤ unixEpoch.key →
       ∃ m, b.not_valid_before (.datetime d) = .error (.ValueError m)) ∧
    (b.nva = none → d.key ≤ unixEpoch.key →
       ∃ m, b.not_valid_after (.datetime d) = .error (.ValueError m)) ∧
    (∃ m, b.not_valid_before (.int n) = .error (.TypeError m)) ∧
    (∃ m, b.not_valid_before (.timeOfDay hh hm hs) = .error (.TypeError m)) ∧
    (∃ m, b.not_valid_after (.int n) = .error (.TypeError m)) ∧
    (∃ m, b.not_valid_after (.timeOfDay hh hm hs) = .error (.TypeError m)) ∧
    PyDateTime.key ⟨1950, 1, 1, 12, 1, 0⟩ ≤ unixEpoch.key := by
  refine ⟨?_, ?_, ⟨_, rfl⟩, ⟨_, rfl⟩, ⟨_, rfl⟩, ⟨_, rfl⟩, by decide⟩
  · intro hnone hlo
    unfold CertificateBuilder.not_valid_before
    dsimp only
    rw [if_neg (by simp [hnone]), if_pos hlo]
    exact ⟨_, rfl⟩
  · intro hnone hlo
    unfold CertificateBuilder.not_valid_after
    dsimp only
    rw [if_neg (by simp [hnone]), if_pos hlo]
    exact ⟨_, rfl⟩

/-- C10 witness: `datetime(1960, 8, 10)` (rejected with `ValueError`) and the
integer `104204304504` and a `datetime.time()` value (rejected with
`TypeError`), the inputs of `test_invalid_not_valid_before` /
`test_invalid_not_valid_after`, on a fresh builder. -/
theorem validity_setter_bounds_witness :
    (∃ m, CertificateBuilder.empty.not_valid_before
       (.datetime ⟨1960, 8, 10, 0, 0, 0⟩) = .error (.ValueError m)) ∧
    (∃ m, CertificateBuilder.empty.not_valid_after
       (.datetime ⟨1960, 8, 10, 0, 0, 0⟩) = .error (.ValueError m)) ∧
    (∃ m, CertificateBuilder.empty.not_valid_before (.int 104204304504) =
       .error (.TypeError m)) ∧
    (∃ m, CertificateBuilder.empty.not_valid_after (.timeOfDay 0 0 0) =
       .error (.TypeError m)) :=
  ⟨((validity_setter_bounds CertificateBuilder.empty ⟨1960, 8, 10, 0, 0, 0⟩
       104204304504 0 0 0).1) rfl (by decide),
   ((validity_setter_bounds CertificateBuilder.empty ⟨1960, 8, 10, 0, 0, 0⟩
       104204304504 0 0 0).2.1) rfl (by decide),
   (validity_setter_bounds CertificateBuilder.empty ⟨1960, 8, 10, 0, 0, 0⟩
       104204304504 0 0 0).2.2.1,
   (validity_setter_bounds CertificateBuilder.empty ⟨1960, 8, 10, 0, 0, 0⟩
       104204304504 0 0 0).2.2.2.2.2.1⟩

/-- The 64-character base64 alphabet in index order, as used by PEM bodies. -/
def b64Alphabet : List Char :=
  ['A', 'B', 'C', 'D', 'E', 'F', 'G', 'H', 'I', 'J', 'K', 'L', 'M',
   'N', 'O', 'P', 'Q', 'R', 'S', 'T', 'U', 'V', 'W', 'X', 'Y', 'Z',
   'a', 'b', 'c', 'd', 'e', 'f', 'g', 'h', 'i', 'j', 'k', 'l', 'm',
   'n', 'o', 'p', 'q', 'r', 's', 't', 'u', 'v', 'w', 'x', 'y', 'z',
   '0', '1', '2', '3', '4', '5', '6', '7', '8', '9', '+', '/']

/-- The alphabet character of a sextet. -/
def b64Char (s : Nat) : Char := b64Alphabet.getD s '?'

/-- Linear scan for the index of a character, starting the count at `i`. -/
def b64IndexAux : Nat → List Char → Char → Option Nat
  | _, [], _ => none
  | i, a :: rest, c => if c = a then some i else b64IndexAux (i + 1) rest c

/-- The sextet of an alphabet character, `none` off the alphabet (in
particular on the padding character). -/
def b64Index (c : Char) : Option Nat := b64IndexAux 0 b64Alphabet c

theorem b64Index_b64Char : ∀ s, s < 64 → b64Index (b64Char s) = some s := by
  decide

theorem b64IndexAux_spec : ∀ (l : List Char) (i : Nat) (c : Char) (s : Nat),
    b64IndexAux i l c = some s →
    i ≤ s ∧ s - i < l.length ∧ l.getD (s - i) '?' = c := by
  intro l
  induction l with
  | nil => intro i c s h; simp [b64IndexAux] at h
  | cons a rest ih =>
    intro i c s h
    unfold b64IndexAux at h
    by_cases hc : c = a
    · rw [if_pos hc] at h
      injection h with h
      subst h
      simp [hc]
    · rw [if_neg hc] at h
      obtain ⟨h1, h2, h3⟩ := ih (i + 1) c s h
      refine ⟨by omega, ?_, ?_⟩
      · simp only [List.length_cons]
        omega
      · have hst : s - i = (s - (i + 1)) + 1 := by omega
        rw [hst]
        simpa using h3

theorem b64Char_b64Index {c : Char} {s : Nat} (h : b64Index c = some s) :
    b64Char s = c ∧ s < 64 := by
  obtain ⟨h1, h2, h3⟩ := b64IndexAux_spec b64Alphabet 0 c s h
  simp only [Nat.sub_zero] at h2 h3
  exact ⟨h3, h2⟩

/-- Base64 encoding of a byte list, three bytes to four characters, with
`'='` padding for a final quantum of one or two bytes. -/
def b64Encode : List Nat → List Char
  | [] => []
  | [a] => [b64Char (a / 4), b64Char (a % 4 * 16), '=', '=']
  | [a, b] =>
    [b64Char (a / 4), b64Char (a % 4 * 16 + b / 16), b64Char (b % 16 * 4), '=']
  | a :: b :: c :: rest =>
    b64Char (a / 4) :: b64Char (a % 4 * 16 + b / 16) ::
    b64Char (b % 16 * 4 + c / 64) :: b64Char (c % 64) :: b64Encode rest

/-- Decoding of the final four-character quantum, accepting canonical
padding only. -/
def b64DecodeFinal (c1 c2 c3 c4 : Char) : Option (List Nat) :=
  match b64Index c1, b64Index c2, b64Index c3, b64Index c4 with
  | some s1, some s2, some s3, some s4 =>
    some [s1 * 4 + s2 / 16, s2 % 16 * 16 + s3 / 4, s3 % 4 * 64 + s4]
  | some s1, some s2, some s3, none =>
    if c4 = '=' ∧ s3 % 4 = 0 then
      some [s1 * 4 + s2 / 16, s2 % 16 * 16 + s3 / 4]
    else none
  | some s1, some s2, none, none =>
    if c3 = '=' ∧ c4 = '=' ∧ s2 % 16 = 0 then some [s1 * 4 + s2 / 16]
    else none
  | _, _, _, _ => none

/-- Base64 decoding, strict: four-character quanta, canonical padding in the
final quantum only, no stray characters. -/
def b64Decode : List Char → Option (List Nat)
  | [] => some []
  | [c1, c2, c3, c4] => b64DecodeFinal c1 c2 c3 c4
  | c1 :: c2 :: c3 :: c4 :: rest =>
    match b64Index c1, b64Index c2, b64Index c3, b64Index c4,
        b64Decode rest with
    | some s1, some s2, some s3, some s4, some tail =>
      some ((s1 * 4 + s2 / 16) :: (s2 % 16 * 16 + s3 / 4) ::
            (s3 % 4 * 64 + s4) :: tail)
    | _, _, _, _, _ => none
  | _ => none

theorem b64Encode_cons (d : Nat) (r : List Nat) :
    ∃ x t, b64Encode (d :: r) = x :: t := by
  cases r with
  | nil => exact ⟨_, _, rfl⟩
  | cons e r2 =>
    cases r2 with
    | nil => exact ⟨_, _, rfl⟩
    | cons f r3 => exact ⟨_, _, rfl⟩

theorem b64_roundtrip : ∀ (l : List Nat), (∀ x ∈ l, x < 256) →
    b64Decode (b64Encode l) = some l := by
  intro l
  induction l using b64Encode.induct with
  | case1 => intro _; rfl
  | case2 a =>
    intro hb
    have ha : a < 256 := hb a (by simp)
    have h1 := b64Index_b64Char (a / 4) (by omega)
    have h2 := b64Index_b64Char (a % 4 * 16) (by omega)
    have hpad : b64Index '=' = none := rfl
    simp only [b64Encode, b64Decode, b64DecodeFinal, h1, h2, hpad]
    rw [if_pos ⟨trivial, trivial, by omega⟩]
    simp only [Option.some.injEq, List.cons.injEq, and_true]
    omega
  | case3 a b =>
    intro hb
    have ha : a < 256 := hb a (by simp)
    have hb2 : b < 256 := hb b (by simp)
    have h1 := b64Index_b64Char (a / 4) (by omega)
    have h2 := b64Index_b64Char (a % 4 * 16 + b / 16) (by omega)
    have h3 := b64Index_b64Char (b % 16 * 4) (by omega)
    have hpad : b64Index '=' = none := rfl
    simp only [b64Encode, b64Decode, b64DecodeFinal, h1, h2, h3, hpad]
    rw [if_pos ⟨trivial, by omega⟩]
    simp only [Option.some.injEq, List.cons.injEq, and_true]
    omega
  | case4 a b c rest ih =>
    intro hball
    have ha : a < 256 := hball a (by simp)
    have hb2 : b < 256 := hball b (by simp)
    have hc : c < 256 := hball c (by simp)
    have h1 := b64Index_b64Char (a / 4) (by omega)
    have h2 := b64Index_b64Char (a % 4 * 16 + b / 16) (by omega)
    have h3 := b64Index_b64Char (b % 16 * 4 + c / 64) (by omega)
    have h4 := b64Index_b64Char (c % 64) (by omega)
    have hrest : b64Decode (b64Encode rest) = some rest :=
      ih (fun x hx => hball x (by simp [hx]))
    cases rest with
    | nil =>
      simp only [b64Encode, b64Decode, b64DecodeFinal, h1, h2, h3, h4]
      simp only [Option.some.injEq, List.cons.injEq, and_true]
      omega
    | cons d r2 =>
      obtain ⟨x, t, hx⟩ := b64Encode_cons d r2
      rw [hx] at hrest
      simp only [b64Encode, hx]
      simp only [b64Decode, h1, h2, h3, h4, hrest]
      simp only [Option.some.injEq, List.cons.injEq, and_true]
      omega

theorem b64_encode_decode : ∀ (cs : List Char) (l : List Nat),
    b64Decode cs = some l → b64Encode l = cs
  | [], l, h => by
    simp only [b64Decode, Option.some.injEq] at h
    subst h
    rfl
  | [c1], l, h => by simp [b64Decode] at h
  | [c1, c2], l, h => by simp [b64Decode] at h
  | [c1, c2, c3], l, h => by simp [b64Decode] at h
  | [c1, c2, c3, c4], l, h => by
    simp only [b64Decode] at h
    unfold b64DecodeFinal at h
    cases hi1 : b64Index c1 with
    | none => rw [hi1] at h; simp at h
    | some s1 =>
      cases hi2 : b64Index c2 with
      | none => rw [hi1, hi2] at h; simp at h
      | some s2 =>
        cases hi3 : b64Index c3 with
        | some s3 =>
          cases hi4 : b64Index c4 with
          | some s4 =>
            rw [hi1, hi2, hi3, hi4] at h
            dsimp only at h
            injection h with h
            subst h
            have hs1 := b64Char_b64Index hi1
            have hs2 := b64Char_b64Index hi2
            have hs3 := b64Char_b64Index hi3
            have hs4 := b64Char_b64Index hi4
            have e1 : (s1 * 4 + s2 / 16) / 4 = s1 := by omega
            have e2 : (s1 * 4 + s2 / 16) % 4 * 16 +
                (s2 % 16 * 16 + s3 / 4) / 16 = s2 := by omega
            have e3 : (s2 % 16 * 16 + s3 / 4) % 16 * 4 +
                (s3 % 4 * 64 + s4) / 64 = s3 := by omega
            have e4 : (s3 % 4 * 64 + s4) % 64 = s4 := by omega
            simp only [b64Encode]
            rw [e1, e2, e3, e4, hs1.1, hs2.1, hs3.1, hs4.1]
          | none =>
            rw [hi1, hi2, hi3, hi4] at h
            dsimp only at h
            by_cases hcond : c4 = '=' ∧ s3 % 4 = 0
            · rw [if_pos hcond] at h
              injection h with h
              subst h
              obtain ⟨hc4, hmod⟩ := hcond
              have hs1 := b64Char_b64Index hi1
              have hs2 := b64Char_b64Index hi2
              have hs3 := b64Char_b64Index hi3
              have e1 : (s1 * 4 + s2 / 16) / 4 = s1 := by omega
              have e2 : (s1 * 4 + s2 / 16) % 4 * 16 +
                  (s2 % 16 * 16 + s3 / 4) / 16 = s2 := by omega
              have e3 : (s2 % 16 * 16 + s3 / 4) % 16 * 4 = s3 := by omega
              simp only [b64Encode]
              rw [e1, e2, e3, hs1.1, hs2.1, hs3.1, hc4]
            · rw [if_neg hcond] at h
              simp at h
        | none =>
          cases hi4 : b64Index c4 with
          | some s4 => rw [hi1, hi2, hi3, hi4] at h; simp at h
          | none =>
            rw [hi1, hi2, hi3, hi4] at h
            dsimp only at h
            by_cases hcond : c3 = '=' ∧ c4 = '=' ∧ s2 % 16 = 0
            · rw [if_pos hcond] at h
              injection h with h
              subst h
              obtain ⟨hc3, hc4, hmod⟩ := hcond
              have hs1 := b64Char_b64Index hi1
              have hs2 := b64Char_b64Index hi2
              have e1 : (s1 * 4 + s2 / 16) / 4 = s1 := by omega
              have e2 : (s1 * 4 + s2 / 16) % 4 * 16 = s2 := by omega
              simp only [b64Encode]
              rw [e1, e2, hs1.1, hs2.1, hc3, hc4]
            · rw [if_neg hcond] at h
              simp at h
  | c1 :: c2 :: c3 :: c4 :: c5 :: rest, l, h => by
    simp only [b64Decode] at h
    cases hi1 : b64Index c1 with
    | none => rw [hi1] at h; simp at h
    | some s1 =>
      cases hi2 : b64Index c2 with
      | none => rw [hi1, hi2] at h; simp at h
      | some s2 =>
        cases hi3 : b64Index c3 with
        | none => rw [hi1, hi2, hi3] at h; simp at h
        | some s3 =>
          cases hi4 : b64Index c4 with
          | none => rw [hi1, hi2, hi3, hi4] at h; simp at h
          | some s4 =>
            cases hrest : b64Decode (c5 :: rest) with
            | none => rw [hi1, hi2, hi3, hi4, hrest] at h; simp at h
            | some tail =>
              rw [hi1, hi2, hi3, hi4, hrest] at h
              dsimp only at h
              injection h with h
              subst h
              have hs1 := b64Char_b64Index hi1
              have hs2 := b64Char_b64Index hi2
              have hs3 := b64Char_b64Index hi3
              have hs4 := b64Char_b64Index hi4
              have htail := b64_encode_decode (c5 :: rest) tail hrest
              have e1 : (s1 * 4 + s2 / 16) / 4 = s1 := by omega
              have e2 : (s1 * 4 + s2 / 16) % 4 * 16 +
                  (s2 % 16 * 16 + s3 / 4) / 16 = s2 := by omega
              have e3 : (s2 % 16 * 16 + s3 / 4) % 16 * 4 +
                  (s3 % 4 * 64 + s4) / 64 = s3 := by omega
              have e4 : (s3 % 4 * 64 + s4) % 64 = s4 := by omega
              simp only [b64Encode]
              rw [e1, e2, e3, e4, hs1.1, hs2.1, hs3.1, hs4.1, htail]

/-- Removal of an exact leading marker: the remainder of the second list
after the first, `none` when it does not start with it. -/
def dropLead : List Char → List Char → Option (List Char)
  | [], l => some l
  | _ :: _, [] => none
  | p :: ps, c :: cs => if c = p then dropLead ps cs else none

/-- Removal of an exact trailing marker. -/
def dropTail (p l : List Char) : Option (List Char) :=
  match dropLead p.reverse l.reverse with
  | none => none
  | some r => some r.reverse

theorem dropLead_append (p l : List Char) : dropLead p (p ++ l) = some l := by
  induction p with
  | nil => rfl
  | cons a ps ih => simp [dropLead, ih]

theorem dropLead_eq_some : ∀ (p l r : List Char),
    dropLead p l = some r → l = p ++ r := by
  intro p
  induction p with
  | nil =>
    intro l r h
    simp only [dropLead, Option.some.injEq] at h
    simp [h]
  | cons a ps ih =>
    intro l r h
    cases l with
    | nil => simp [dropLead] at h
    | cons c cs =>
      unfold dropLead at h
      by_cases hc : c = a
      · rw [if_pos hc] at h
        rw [List.cons_append, ← ih cs r h, hc]
      · rw [if_neg hc] at h
        exact absurd h (by simp)

theorem dropTail_append (p l : List Char) : dropTail p (l ++ p) = some l := by
  unfold dropTail
  rw [List.reverse_append, dropLead_append]
  dsimp only
  rw [List.reverse_reverse]

theorem dropTail_eq_some {p l r : List Char} (h : dropTail p l = some r) :
    l = r ++ p := by
  unfold dropTail at h
  cases hd : dropLead p.reverse l.reverse with
  | none => rw [hd] at h; exact absurd h (by simp)
  | some r2 =>
    rw [hd] at h
    dsimp only at h
    injection h with h
    have hsplit := dropLead_eq_some p.reverse l.reverse r2 hd
    have hrev := congrArg List.reverse hsplit
    simp only [List.reverse_reverse, List.reverse_append] at hrev
    rw [hrev, ← h]

/-- Modelled from the spec: the PEM armor of a certificate.  The model writes
the base64 body as a single line (the line wrapping of real PEM is
whitespace the decoder strips and is not modelled). -/
def pemCertHeader : List Char := "-----BEGIN CERTIFICATE-----\n".data

/-- Modelled from the spec: the trailing armor of a certificate. -/
def pemCertFooter : List Char := "\n-----END CERTIFICATE-----\n".data

/-- Modelled from the spec: the PEM armor of a certificate signing request. -/
def pemCsrHeader : List Char := "-----BEGIN CERTIFICATE REQUEST-----\n".data

/-- Modelled from the spec: the trailing armor of a certificate signing
request. -/
def pemCsrFooter : List Char := "\n-----END CERTIFICATE REQUEST-----\n".data

/-- Modelled from the spec: PEM serialization — armor around the base64 of
the DER bytes. -/
def pemEncodeWith (header footer : List Char) (der : List Nat) : List Char :=
  header ++ b64Encode der ++ footer

/-- Modelled from the spec: PEM parsing — strict armor match, then base64
decoding of the body. -/
def pemDecodeWith (header footer : List Char) (s : List Char) :
    Option (List Nat) :=
  match dropLead header s with
  | none => none
  | some r =>
    match dropTail footer r with
    | none => none
    | some mid => b64Decode mid

theorem pem_roundtrip (header footer : List Char) (l : List Nat)
    (hb : ∀ x ∈ l, x < 256) :
    pemDecodeWith header footer (pemEncodeWith header footer l) = some l := by
  unfold pemEncodeWith pemDecodeWith
  rw [List.append_assoc, dropLead_append]
  dsimp only
  rw [dropTail_append]
  exact b64_roundtrip l hb

theorem pem_encode_decode {header footer : List Char} {s : List Char}
    {l : List Nat} (h : pemDecodeWith header footer s = some l) :
    pemEncodeWith header footer l = s := by
  unfold pemDecodeWith at h
  cases h1 : dropLead header s with
  | none => rw [h1] at h; simp at h
  | some r =>
    rw [h1] at h
    dsimp only at h
    cases h2 : dropTail footer r with
    | none => rw [h2] at h; simp at h
    | some mid =>
      rw [h2] at h
      dsimp only at h
      have hs := dropLead_eq_some header s r h1
      have hr := dropTail_eq_some h2
      have hmid := b64_encode_decode mid l h
      rw [hs, hr]
      unfold pemEncodeWith
      rw [hmid, List.append_assoc]

/-- Big-endian value of the contents octets of a DER INTEGER. -/
def derNatValue (l : List Nat) : Nat := l.foldl (fun acc b => acc * 256 + b) 0

/-- Modelled from the spec: the backend's DER length parse at the head of a
byte list — short form, and the one- and two-octet long forms; returns the
content length and the remainder. -/
def readDerLen : List Nat → Option (Nat × List Nat)
  | [] => none
  | b :: rest =>
    if b < 128 then some (b, rest)
    else if b = 129 then
      match rest with
      | l1 :: r => if 128 ≤ l1 then some (l1, r) else none
      | [] => none
    else if b = 130 then
      match rest with
      | l1 :: l2 :: r => some (l1 * 256 + l2, r)
      | _ => none
    else none

/-- Modelled from the spec: the backend's TLV split — tag octet, contents
octets, remainder; fails on truncation. -/
def readTLV (l : List Nat) : Option (Nat × List Nat × List Nat) :=
  match l with
  | [] => none
  | t :: rest =>
    match readDerLen rest with
    | none => none
    | some (len, r) =>
      if len ≤ r.length then some (t, r.take len, r.drop len) else none

/-- Modelled from the spec: extraction of the raw version integer from the
contents of a TBSCertificate — the `[0] EXPLICIT` tagged INTEGER when
present, the default `0` (v1) otherwise; any integer value is accepted at
parse time (parsing is lenient). -/
def rawVersionOf (tbsContents : List Nat) : Nat :=
  match readTLV tbsContents with
  | some (160, inner, _) =>
    match readTLV inner with
    | some (2, intBytes, _) => derNatValue intBytes
    | _ => 0
  | _ => 0

/-- Modelled from the spec: the structural validation and field extraction
the backend performs on a DER `SEQUENCE { body SEQUENCE, algorithm SEQUENCE,
signature BIT STRING }` — the common outer shape of certificates and CSRs.
Checks that every element is an octet and that there is no trailing data and
returns the full TLV bytes of the body, the contents of the body and the
signature contents. -/
def splitSignedStructure (der : List Nat) :
    Option (List Nat × List Nat × List Nat) :=
  if der.all (fun x => x < 256) then
    match readTLV der with
    | some (48, contents, []) =>
      match readTLV contents with
      | some (48, innerContents, rest1) =>
        match readTLV rest1 with
        | some (48, _, rest2) =>
          match readTLV rest2 with
          | some (3, sigBytes, []) =>
            some (contents.take (contents.length - rest1.length),
                  innerContents, sigBytes)
          | _ => none
        | _ => none
      | _ => none
    | _ => none
  else none

/-- Modelled from the spec: a `Certificate` is an immutable parsed view over
the raw DER blob with derived fields; equality is by the encoded bytes
(every stored field is a function of `der`). -/
structure Certificate where
  der : List Nat
  tbs_bytes : List Nat
  signature : List Nat
  raw_version : Nat
  deriving DecidableEq, Repr

/-- Modelled from the spec: a `CertificateSigningRequest` is an immutable
parsed view over the raw DER blob; equality by encoded bytes. -/
structure CertificateSigningRequest where
  der : List Nat
  tbs_bytes : List Nat
  signature : List Nat
  deriving DecidableEq, Repr

/-- Modelled from the spec: the DER certificate loader; malformed input is a
`ValueError`. -/
def load_der_x509_certificate (b : List Nat) : Except X509Error Certificate :=
  match splitSignedStructure b with
  | none => .error (.ValueError "Unable to load certificate")
  | some (tbs, tbsContents, sig) => .ok ⟨b, tbs, sig, rawVersionOf tbsContents⟩

/-- Modelled from the spec: the DER CSR loader. -/
def load_der_x509_csr (b : List Nat) :
    Except X509Error CertificateSigningRequest :=
  match splitSignedStructure b with
  | none => .error (.ValueError "Unable to load request")
  | some (tbs, _, sig) => .ok ⟨b, tbs, sig⟩

/-- Modelled from the spec: DER serialization returns the retained canonical
bytes. -/
def Certificate.public_bytes_der (c : Certificate) : List Nat := c.der

/-- Modelled from the spec: PEM serialization armors the canonical DER
bytes. -/
def Certificate.public_bytes_pem (c : Certificate) : List Char :=
  pemEncodeWith pemCertHeader pemCertFooter c.der

/-- Modelled from the spec: DER serialization of a CSR. -/
def CertificateSigningRequest.public_bytes_der
    (r : CertificateSigningRequest) : List Nat := r.der

/-- Modelled from the spec: PEM serialization of a CSR. -/
def CertificateSigningRequest.public_bytes_pem
    (r : CertificateSigningRequest) : List Char :=
  pemEncodeWith pemCsrHeader pemCsrFooter r.der

/-- Modelled from the spec: the PEM certificate loader — armor removal, then
the DER loader. -/
def load_pem_x509_certificate (s : List Char) :
    Except X509Error Certificate :=
  match pemDecodeWith pemCertHeader pemCertFooter s with
  | none => .error (.ValueError "Unable to load certificate")
  | some der => load_der_x509_certificate der

/-- Modelled from the spec: the PEM CSR loader. -/
def load_pem_x509_csr (s : List Char) :
    Except X509Error CertificateSigningRequest :=
  match pemDecodeWith pemCsrHeader pemCsrFooter s with
  | none => .error (.ValueError "Unable to load request")
  | some der => load_der_x509_csr der

/-- Modelled from the spec: the certificate version enumeration. -/
inductive Version where
  | v1
  | v2
  | v3
  deriving DecidableEq, Repr

/-- Modelled from the spec: interpretation of the raw version integer —
0/1/2 map to v1/v2/v3, anything else raises `InvalidVersion` carrying the
raw parsed integer; interpretation is deferred to this accessor. -/
def versionFromRaw (raw : Nat) : Except X509Error Version :=
  match raw with
  | 0 => .ok .v1
  | 1 => .ok .v2
  | 2 => .ok .v3
  | _ => .error (.InvalidVersion raw)

/-- Modelled from the spec: the `version` property of a certificate. -/
def Certificate.version (c : Certificate) : Except X509Error Version :=
  versionFromRaw c.raw_version

theorem splitSignedStructure_bytes {b : List Nat}
    {p : List Nat × List Nat × List Nat}
    (h : splitSignedStructure b = some p) :
    ∀ x ∈ b, x < 256 := by
  unfold splitSignedStructure at h
  by_cases hall : b.all (fun x => x < 256)
  · intro x hx
    have := List.all_eq_true.mp hall x hx
    simpa using this
  · rw [if_neg hall] at h
    exact absurd h (by simp)

theorem load_der_cert_der {b : List Nat} {c : Certificate}
    (h : load_der_x509_certificate b = .ok c) : c.der = b := by
  unfold load_der_x509_certificate at h
  cases hsp : splitSignedStructure b with
  | none => rw [hsp] at h; exact absurd h (by simp)
  | some p =>
    obtain ⟨t, tc, sg⟩ := p
    rw [hsp] at h
    dsimp only at h
    injection h with h
    rw [← h]

theorem load_der_csr_der {b : List Nat} {r : CertificateSigningRequest}
    (h : load_der_x509_csr b = .ok r) : r.der = b := by
  unfold load_der_x509_csr at h
  cases hsp : splitSignedStructure b with
  | none => rw [hsp] at h; exact absurd h (by simp)
  | some p =>
    obtain ⟨t, tc, sg⟩ := p
    rw [hsp] at h
    dsimp only at h
    injection h with h
    rw [← h]

theorem load_der_cert_bytes {b : List Nat} {c : Certificate}
    (h : load_der_x509_certificate b = .ok c) : ∀ x ∈ b, x < 256 := by
  unfold load_der_x509_certificate at h
  cases hsp : splitSignedStructure b with
  | none => rw [hsp] at h; exact absurd h (by simp)
  | some p => exact splitSignedStructure_bytes hsp

theorem load_der_csr_bytes {b : List Nat} {r : CertificateSigningRequest}
    (h : load_der_x509_csr b = .ok r) : ∀ x ∈ b, x < 256 := by
  unfold load_der_x509_csr at h
  cases hsp : splitSignedStructure b with
  | none => rw [hsp] at h; exact absurd h (by simp)
  | some p => exact splitSignedStructure_bytes hsp

/-- C1: round-trip identity of loading and `public_bytes` for certificates
and CSRs.  Loading valid DER bytes and serializing with DER returns the
original bytes; loading valid PEM text and serializing with PEM returns the
original text; reloading either serialization yields an object equal to the
original. -/
theorem public_bytes_roundtrip (b : List Nat) (s : List Char)
    (c : Certificate) (r : CertificateSigningRequest) :
    (load_der_x509_certificate b = .ok c →
       c.public_bytes_der = b ∧
       load_der_x509_certificate c.public_bytes_der = .ok c ∧
       load_pem_x509_certificate c.public_bytes_pem = .ok c) ∧
    (load_pem_x509_certificate s = .ok c →
       c.public_bytes_pem = s ∧
       load_pem_x509_certificate c.public_bytes_pem = .ok c) ∧
    (load_der_x509_csr b = .ok r →
       r.public_bytes_der = b ∧
       load_der_x509_csr r.public_bytes_der = .ok r ∧
       load_pem_x509_csr r.public_bytes_pem = .ok r) ∧
    (load_pem_x509_csr s = .ok r →
       r.public_bytes_pem = s ∧
       load_pem_x509_csr r.public_bytes_pem = .ok r) := by
  refine ⟨?_, ?_, ?_, ?_⟩
  · intro h
    have hder := load_der_cert_der h
    have hbytes := load_der_cert_bytes h
    refine ⟨hder, ?_, ?_⟩
    · show load_der_x509_certificate c.der = .ok c
      rw [hder]
      exact h
    · show load_pem_x509_certificate
        (pemEncodeWith pemCertHeader pemCertFooter c.der) = .ok c
      unfold load_pem_x509_certificate
      rw [hder, pem_roundtrip _ _ b hbytes]
      exact h
  · intro h
    unfold load_pem_x509_certificate at h
    cases hdec : pemDecodeWith pemCertHeader pemCertFooter s with
    | none => rw [hdec] at h; exact absurd h (by simp)
    | some der =>
      rw [hdec] at h
      dsimp only at h
      have hder := load_der_cert_der h
      have henc := pem_encode_decode hdec
      have hpb : c.public_bytes_pem = s := by
        show pemEncodeWith pemCertHeader pemCertFooter c.der = s
        rw [hder]
        exact henc
      refine ⟨hpb, ?_⟩
      rw [hpb]
      unfold load_pem_x509_certificate
      rw [hdec]
      exact h
  · intro h
    have hder := load_der_csr_der h
    have hbytes := load_der_csr_bytes h
    refine ⟨hder, ?_, ?_⟩
    · show load_der_x509_csr r.der = .ok r
      rw [hder]
      exact h
    · show load_pem_x509_csr
        (pemEncodeWith pemCsrHeader pemCsrFooter r.der) = .ok r
      unfold load_pem_x509_csr
      rw [hder, pem_roundtrip _ _ b hbytes]
      exact h
  · intro h
    unfold load_pem_x509_csr at h
    cases hdec : pemDecodeWith pemCsrHeader pemCsrFooter s with
    | none => rw [hdec] at h; exact absurd h (by simp)
    | some der =>
      rw [hdec] at h
      dsimp only at h
      have hder := load_der_csr_der h
      have henc := pem_encode_decode hdec
      have hpb : r.public_bytes_pem = s := by
        show pemEncodeWith pemCsrHeader pemCsrFooter r.der = s
        rw [hder]
        exact henc
      refine ⟨hpb, ?_⟩
      rw [hpb]
      unfold load_pem_x509_csr
      rw [hdec]
      exact h

/-- A minimal well-formed DER certificate skeleton: an outer SEQUENCE holding
a TBS SEQUENCE (with a `[0]` version INTEGER of value 2), an empty algorithm
SEQUENCE and a one-octet BIT STRING. -/
def certDerExample : List Nat :=
  [48, 12, 48, 5, 160, 3, 2, 1, 2, 48, 0, 3, 1, 0]

/-- The parse of `certDerExample`. -/
def certExample : Certificate :=
  ⟨certDerExample, [48, 5, 160, 3, 2, 1, 2], [0], 2⟩

/-- A minimal well-formed DER CSR skeleton. -/
def csrDerExample : List Nat := [48, 7, 48, 0, 48, 0, 3, 1, 0]

/-- The parse of `csrDerExample`. -/
def csrExample : CertificateSigningRequest := ⟨csrDerExample, [48, 0], [0]⟩

/-- The PEM text of `certDerExample`. -/
def certPemExample : List Char :=
  pemEncodeWith pemCertHeader pemCertFooter certDerExample

/-- C1 witness: the concrete skeleton certificate and CSR round-trip through
DER, and the certificate loaded from its PEM text re-serializes to the same
text. -/
theorem public_bytes_roundtrip_witness :
    (certExample.public_bytes_der = certDerExample ∧
     load_der_x509_certificate certExample.public_bytes_der =
       .ok certExample ∧
     load_pem_x509_certificate certExample.public_bytes_pem =
       .ok certExample) ∧
    (certExample.public_bytes_pem = certPemExample ∧
     load_pem_x509_certificate certExample.public_bytes_pem =
       .ok certExample) ∧
    (csrExample.public_bytes_der = csrDerExample ∧
     load_der_x509_csr csrExample.public_bytes_der = .ok csrExample ∧
     load_pem_x509_csr csrExample.public_bytes_pem = .ok csrExample) :=
  ⟨(public_bytes_roundtrip certDerExample certPemExample certExample
      csrExample).1 (by rfl),
   (public_bytes_roundtrip certDerExample certPemExample certExample
      csrExample).2.1 (by rfl),
   (public_bytes_roundtrip csrDerExample certPemExample certExample
      csrExample).2.2.1 (by rfl)⟩

/-- A minimal DER certificate skeleton whose `[0]` version INTEGER octet is
`v`: version values are not constrained at parse time. -/
def mkCertDerWithVersion (v : Nat) : List Nat :=
  [48, 12, 48, 5, 160, 3, 2, 1, v, 48, 0, 3, 1, 0]

theorem versionFromRaw_invalid (raw : Nat) (h : 3 ≤ raw) :
    versionFromRaw raw = .error (.InvalidVersion raw) := by
  match raw, h with
  | n + 3, _ => rfl

theorem load_mkCertDerWithVersion (v : Nat) (hv : v < 256) :
    load_der_x509_certificate (mkCertDerWithVersion v) =
      .ok ⟨mkCertDerWithVersion v, [48, 5, 160, 3, 2, 1, v], [0], v⟩ := by
  unfold load_der_x509_certificate splitSignedStructure mkCertDerWithVersion
  simp only [List.all_cons, List.all_nil, Bool.and_true, Bool.and_eq_true,
    decide_eq_true_eq]
  rw [if_pos ⟨by omega, by omega, by omega, by omega, by omega, by omega,
    by omega, by omega, hv, by omega, by omega, by omega, by omega, by omega⟩]
  simp only [readTLV, readDerLen, rawVersionOf, derNatValue]
  norm_num

/-- C3: version interpretation is strict and deferred while parsing is
lenient — raw version integers 0/1/2 map to v1/v2/v3, any other raw integer
loads successfully (for every version octet a certificate skeleton carrying
it parses) but the `version` accessor raises `InvalidVersion` carrying the
raw parsed integer. -/
theorem certificate_version_interpretation (c : Certificate) (v : Nat) :
    (c.raw_version = 0 → c.version = .ok .v1) ∧
    (c.raw_version = 1 → c.version = .ok .v2) ∧
    (c.raw_version = 2 → c.version = .ok .v3) ∧
    (c.raw_version ∉ [0, 1, 2] →
       c.version = .error (.InvalidVersion c.raw_version)) ∧
    (v < 256 →
       ∃ cv, load_der_x509_certificate (mkCertDerWithVersion v) = .ok cv ∧
         cv.raw_version = v) := by
  refine ⟨?_, ?_, ?_, ?_, ?_⟩
  · intro h
    unfold Certificate.version
    rw [h]
    rfl
  · intro h
    unfold Certificate.version
    rw [h]
    rfl
  · intro h
    unfold Certificate.version
    rw [h]
    rfl
  · intro h
    simp only [List.mem_cons, List.not_mem_nil, or_false, not_or] at h
    unfold Certificate.version
    exact versionFromRaw_invalid c.raw_version (by omega)
  · intro hv
    exact ⟨_, load_mkCertDerWithVersion v hv, rfl⟩

/-- C3 witness: the skeleton with raw version 2 reads as v3; the skeleton
with raw version 7 (the value of `invalid_version.pem`) loads successfully
and its `version` accessor fails with `InvalidVersion 7`. -/
theorem certificate_version_interpretation_witness :
    certExample.version = .ok .v3 ∧
    (∃ cv, load_der_x509_certificate (mkCertDerWithVersion 7) = .ok cv ∧
       cv.raw_version = 7) ∧
    (⟨mkCertDerWithVersion 7, [48, 5, 160, 3, 2, 1, 7], [0], 7⟩ :
        Certificate).version = .error (.InvalidVersion 7) :=
  ⟨(certificate_version_interpretation certExample 0).2.2.1 rfl,
   (certificate_version_interpretation certExample 7).2.2.2.2 (by decide),
   (certificate_version_interpretation
      ⟨mkCertDerWithVersion 7, [48, 5, 160, 3, 2, 1, 7], [0], 7⟩ 0).2.2.2.1
      (by decide)⟩
